import Mathlib

/-!
# Verification of the token-input mutation core

Shallow embedding of `src/libafl/src/inputs/token.rs` and
`src/libafl/src/mutators/token_input_mutations.rs`.

Conventions:
* machine integers (`u64`, `usize`) are `Nat` with an explicit `% 2 ^ 64`
  where the 64-bit range matters;
* the token sequence of a `TokenInput<T>` is a `List T`;
* fallible operations return `Except`; a Rust slice-index panic is
  modelled as `none` of an `Option`;
* the random source is threaded explicitly: every draw returns the value
  together with the advanced source.
-/

namespace LibAFL

/-- Modelled from the spec: the random-source capability
(`libafl_bolts::rands::Rand`, which is not under `src/`).  It is an
arbitrary stream of 64-bit values: `vals` is the stream and `ctr` the
current position. -/
structure Rand where
  vals : Nat → Nat
  ctr : Nat

/-- Modelled from the spec: `Rand::next`, "draw an unbounded integer" —
the next 64-bit value of the stream. -/
def Rand.next (r : Rand) : Nat × Rand :=
  (r.vals r.ctr % 2 ^ 64, Rand.mk r.vals (r.ctr + 1))

/-- Modelled from the spec: `Rand::below(bound)`, "draw an integer
uniformly below a given bound".  A bound of at most one yields `0`
without consuming a draw; otherwise a draw is reduced modulo the bound
(the upstream rejection sampling only affects the distribution, which
the stream abstracts over, never the range). -/
def Rand.below (r : Rand) (bound : Nat) : Nat × Rand :=
  if bound ≤ 1 then (0, r)
  else
    let p := r.next
    (p.1 % bound, p.2)

/-- Modelled from the spec: `Rand::choose`, "choose uniformly from a
non-empty collection" — the index chosen from a collection of `len`
elements. -/
def Rand.choose_idx (r : Rand) (len : Nat) : Nat × Rand :=
  r.below len

/-- `libafl::mutators::MutationResult`. -/
inductive MutationResult
  | Mutated
  | Skipped
deriving DecidableEq, Repr

/-- The `Token` trait of `src/libafl/src/inputs/token.rs`: random
generation, similar-replacement (whose default replaces the token with
an unrelated fresh random one, as in the source), the byte encoding,
and the optional paired closing-delimiter value (default `None`). -/
class TokenC (T : Type) where
  new_rand : Rand → T × Rand
  replace_rand_similar : T → Rand → T × Rand := fun _ r => new_rand r
  as_bytes : T → List Nat
  closing_bracket : T → Option T := fun _ => none

variable {T : Type}

/-- `buffer_self_copy(data, from, to, len)` from `libafl::mutators`
(not under `src/`); modelled from the spec: an in-place overlapping
move (`memmove`): positions `[dst, dst+cnt)` receive the original
elements `[src, src+cnt)` and everything else is unchanged.  All call
sites keep `src + cnt` and `dst + cnt` within bounds. -/
def buffer_self_copy (data : List T) (src dst cnt : Nat) : List T :=
  data.take dst ++ (data.drop src).take cnt ++ data.drop (dst + cnt)

/-- Run a token-transforming draw over every element of a list in
order, threading the random source (models a `for tok in &mut slice`
loop whose body consumes randomness). -/
def mapRand (f : T → Rand → T × Rand) : List T → Rand → List T × Rand
  | [], r => ([], r)
  | t :: ts, r =>
    let p := f t r
    let q := mapRand f ts p.2
    (p.1 :: q.1, q.2)

/-- Apply `f` to the elements of the slice `tokens[s..e]`, leaving the
rest alone (models `for tok in &mut tokens[s..e]`; call sites establish
`s ≤ e ≤ tokens.length`). -/
def mutateRegion (f : T → Rand → T × Rand) (tokens : List T) (s e : Nat)
    (r : Rand) : List T × Rand :=
  let q := mapRand f ((tokens.drop s).take (e - s)) r
  (tokens.take s ++ q.1 ++ tokens.drop e, q.2)

/-- Generate `n` fresh draws in order (models
`Vec::resize_with(n, || T::new_rand(rand))` on an empty buffer). -/
def genRand (f : Rand → T × Rand) : Nat → Rand → List T × Rand
  | 0, r => ([], r)
  | n + 1, r =>
    let p := f r
    let q := genRand f n p.2
    (p.1 :: q.1, q.2)

/-- `TokenRandMutator::mutate`: replace one token, chosen uniformly,
with a fresh random token; `Skipped` on an empty sequence. -/
def TokenRandMutator.mutate [TokenC T] (r : Rand) (tokens : List T) :
    MutationResult × List T × Rand :=
  if tokens.isEmpty then (.Skipped, tokens, r)
  else
    let p := r.choose_idx tokens.length
    let q := TokenC.new_rand p.2
    (.Mutated, tokens.set p.1 q.1, q.2)

/-- `TokenDeleteMutator::mutate`: remove the token at one uniformly
chosen index; `Skipped` on an empty sequence. -/
def TokenDeleteMutator.mutate (r : Rand) (tokens : List T) :
    MutationResult × List T × Rand :=
  if tokens.isEmpty then (.Skipped, tokens, r)
  else
    let p := r.below tokens.length
    (.Mutated, tokens.eraseIdx p.1, p.2)

/-- `TokenRandSimilarMutator::mutate`: replace one uniformly chosen
token with a similar one; `Skipped` on an empty sequence. -/
def TokenRandSimilarMutator.mutate [TokenC T] (r : Rand) (tokens : List T) :
    MutationResult × List T × Rand :=
  match tokens with
  | [] => (.Skipped, [], r)
  | t :: ts =>
    let p := r.choose_idx (t :: ts).length
    let q := TokenC.replace_rand_similar ((t :: ts).getD p.1 t) p.2
    (.Mutated, (t :: ts).set p.1 q.1, q.2)

/-- `locate_cl_br`: `buf.iter().position(|tok| tok == cl_br)` — the
index of the first token equal to the closing bracket. -/
def locate_cl_br [DecidableEq T] (cl_br : T) : List T → Option Nat
  | [] => none
  | t :: ts =>
    if t = cl_br then some 0
    else (locate_cl_br cl_br ts).map fun i => i + 1

/-- `rand_region`: collect every index whose token exposes a
closing-delimiter value; if none exists return `none`; otherwise pick
one candidate and search forward from its index (inclusive) for the
first token equal to the paired closing value, returning the half-open
range as a `(start, stop)` pair, or `none` if the closer never
appears. -/
def rand_region [DecidableEq T] [TokenC T] (r : Rand) (input : List T) :
    Option (Nat × Nat) × Rand :=
  let op_brs := input.enum.filterMap fun p =>
    (TokenC.closing_bracket p.2).map fun tok => (tok, p.1)
  match op_brs with
  | [] => (none, r)
  | b :: bs =>
    let p := r.choose_idx (b :: bs).length
    let c := (b :: bs).getD p.1 b
    match locate_cl_br c.1 (input.drop c.2) with
    | some idx => (some (c.2, idx + c.2), p.2)
    | none => (none, p.2)

/-- `TokenReplaceRegionSimilarMutator::mutate`: replace every token of
a randomly selected region with a similar one; `Skipped` if no region
can be selected. -/
def TokenReplaceRegionSimilarMutator.mutate [DecidableEq T] [TokenC T]
    (r : Rand) (tokens : List T) : MutationResult × List T × Rand :=
  match rand_region r tokens with
  | (none, r1) => (.Skipped, tokens, r1)
  | (some reg, r1) =>
    let q := mutateRegion TokenC.replace_rand_similar tokens reg.1 reg.2 r1
    (.Mutated, q.1, q.2)

/-- `TokenReplaceRegionRandMutator::mutate`: replace every token of a
randomly selected region with a fresh random token; `Skipped` if no
region can be selected. -/
def TokenReplaceRegionRandMutator.mutate [DecidableEq T] [TokenC T]
    (r : Rand) (tokens : List T) : MutationResult × List T × Rand :=
  match rand_region r tokens with
  | (none, r1) => (.Skipped, tokens, r1)
  | (some reg, r1) =>
    let q := mutateRegion (fun _ rr => TokenC.new_rand rr) tokens reg.1 reg.2 r1
    (.Mutated, q.1, q.2)

/-- `TokenOverrideMutator::mutate`: draw two RAW UNBOUNDED 64-bit
offsets, order them as `min..max` and overwrite that slice with fresh
random tokens.  Indexing `tokens[min..max]` panics in Rust when
`max > tokens.length`; the panic is modelled as `none`. -/
def TokenOverrideMutator.mutate [TokenC T] (r : Rand) (tokens : List T) :
    Option (MutationResult × List T × Rand) :=
  if tokens.isEmpty then some (.Skipped, tokens, r)
  else
    let p1 := r.next
    let p2 := p1.2.next
    let s := min p1.1 p2.1
    let e := max p1.1 p2.1
    if e ≤ tokens.length then
      let q := mutateRegion (fun _ rr => TokenC.new_rand rr) tokens s e p2.2
      some (.Mutated, q.1, q.2)
    else none

/-- `TokenSimilarOverrideMutator::mutate`: draw two offsets bounded by
the length, order them as `min..max` and replace that slice with
similar tokens; `Skipped` on an empty sequence. -/
def TokenSimilarOverrideMutator.mutate [TokenC T] (r : Rand) (tokens : List T) :
    MutationResult × List T × Rand :=
  if tokens.isEmpty then (.Skipped, tokens, r)
  else
    let len := tokens.length
    let p1 := r.below len
    let p2 := p1.2.below len
    let s := min p1.1 p2.1
    let e := max p1.1 p2.1
    let q := mutateRegion TokenC.replace_rand_similar tokens s e p2.2
    (.Mutated, q.1, q.2)

/-- `TokenDeleteManyMutator::mutate`: draw two offsets bounded by the
length, order them as `min..max = s..e`, move the suffix `[e, len)`
down to position `s` with an overlapping copy, then truncate the
sequence to length `e` (the source truncates to `range.end`).  There is
no emptiness check; on an empty sequence both draws are `0` and the
result is `Mutated` with the sequence unchanged. -/
def TokenDeleteManyMutator.mutate (r : Rand) (tokens : List T) :
    MutationResult × List T × Rand :=
  let len := tokens.length
  let p1 := r.below len
  let p2 := p1.2.below len
  let s := min p1.1 p2.1
  let e := max p1.1 p2.1
  let moved := buffer_self_copy tokens e s (len - e)
  (.Mutated, moved.take e, p2.2)

/-- `TokenDeleteRegionMutator::mutate`: select a region `s..e`, move
the suffix `[e, len)` down to position `s` with an overlapping copy,
then truncate to length `e` (the source truncates to `range.end`);
`Skipped` if no region can be selected. -/
def TokenDeleteRegionMutator.mutate [DecidableEq T] [TokenC T]
    (r : Rand) (tokens : List T) : MutationResult × List T × Rand :=
  let len := tokens.length
  match rand_region r tokens with
  | (none, r1) => (.Skipped, tokens, r1)
  | (some reg, r1) =>
    let moved := buffer_self_copy tokens reg.2 reg.1 (len - reg.2)
    (.Mutated, moved.take reg.2, r1)

/-- `INSERT_TOKEN_MAX`: bound on how many tokens one insertion adds. -/
def INSERT_TOKEN_MAX : Nat := 64

/-- `TokenInsertMutator::mutate`: draw a count below
`INSERT_TOKEN_MAX`, generate that many fresh random tokens into the
scratch buffer (empty at every call start), draw an insertion index
bounded by the length, append the suffix from that index to the buffer,
truncate the input to the index and append the buffer.  There is no
emptiness check; on an empty sequence the index draw is `0` and the
fresh tokens become the whole sequence. -/
def TokenInsertMutator.mutate [TokenC T] (r : Rand) (tokens : List T) :
    MutationResult × List T × Rand :=
  let p := r.below INSERT_TOKEN_MAX
  let g := genRand TokenC.new_rand p.1 p.2
  let q := g.2.below tokens.length
  let buf := g.1 ++ tokens.drop q.1
  (.Mutated, tokens.take q.1 ++ buf, q.2)

/-- Modelled from the spec: the corpus accessor capability.  Each
stored testcase either materializes to its token sequence or fails to
load (`corpus().get(idx)?` / `load_input(...)?` — storage or
deserialization failure). -/
def CorpusM (T : Type) : Type := List (Except Unit (List T))

/-- `TokenSpliceRegionMutator::mutate`: draw a random corpus id, select
a local region (`Skipped` if none), read the other testcase
(propagating any failure as an error), select a region of the other
sequence using a clone of the random source whose draws are discarded
(`Skipped` if none), and replace the local region contents with the
other region contents.  The corpus is returned unmodified — the other
sequence is only read. -/
def TokenSpliceRegionMutator.mutate [DecidableEq T] [TokenC T]
    (corpus : CorpusM T) (r : Rand) (tokens : List T) :
    Except Unit (MutationResult × List T × CorpusM T × Rand) :=
  let pid := r.below corpus.length
  match rand_region pid.2 tokens with
  | (none, r1) => .ok (.Skipped, tokens, corpus, r1)
  | (some reg, r1) =>
    match corpus.getD pid.1 (.error ()) with
    | .error e => .error e
    | .ok other =>
      match rand_region r1 other with
      | (none, _) => .ok (.Skipped, tokens, corpus, r1)
      | (some oreg, _) =>
        let buf := (other.drop oreg.1).take (oreg.2 - oreg.1) ++ tokens.drop reg.2
        .ok (.Mutated, tokens.take reg.1 ++ buf, corpus, r1)

/-- Modelled from the spec: the fixed-seed, order-sensitive streaming
hasher used by `generate_name` (the external `ahash` crate's
`RandomState::with_seeds(0,0,0,0).build_hasher()`): an abstract state
machine with the deterministic initial state of the fixed seeds, a
per-slice `write`, and a 64-bit `finish`. -/
structure HasherM (σ : Type) where
  build : σ
  write : σ → List Nat → σ
  finish : σ → Nat

/-- One hexadecimal digit. -/
def hexDigit (n : Nat) : Char :=
  if n < 10 then Char.ofNat (48 + n) else Char.ofNat (87 + n)

/-- `format!("\x7b:016x\x7d", v)` for a 64-bit value: sixteen hex
digits, most significant first, zero-padded. -/
def hex016 (n : Nat) : String :=
  String.mk ((List.range 16).map fun i => hexDigit (n / 16 ^ (15 - i) % 16))

/-- `TokenInput::generate_name`: hash every token's byte encoding in
order into the fixed-seed hasher and format the 64-bit digest as a
16-digit hexadecimal string.  The `idx` argument is ignored by the
source (`_idx`). -/
def generate_name {σ : Type} [TokenC T] (M : HasherM σ) (tokens : List T)
    (_idx : Nat) : String :=
  let h := tokens.foldl (fun st tok => M.write st (TokenC.as_bytes tok)) M.build
  hex016 (M.finish h % 2 ^ 64)

/-- A concrete token type for witnesses: the spec scenario alphabet
`A ( B C ) D`, where `(` closes with `)`. -/
inductive Tok
  | A
  | LP
  | B
  | C
  | RP
  | D
deriving DecidableEq, Repr

instance : TokenC Tok where
  new_rand r :=
    let p := r.next
    (match p.1 % 6 with
     | 0 => .A | 1 => .LP | 2 => .B | 3 => .C | 4 => .RP | _ => .D, p.2)
  as_bytes t :=
    match t with
    | .A => [65] | .LP => [40] | .B => [66] | .C => [67] | .RP => [41] | .D => [68]
  closing_bracket t :=
    match t with
    | .LP => some .RP | _ => none

/-- A random source with a concrete stream. -/
def mkRand (f : Nat → Nat) : Rand :=
  Rand.mk f 0

/-! ## Helper lemmas -/

theorem Rand.below_lt (r : Rand) {bound : Nat} (h : 0 < bound) :
    (r.below bound).1 < bound := by
  unfold Rand.below
  split
  · simpa using h
  · exact Nat.mod_lt _ h

theorem mapRand_length (f : T → Rand → T × Rand) :
    ∀ (l : List T) (r : Rand), (mapRand f l r).1.length = l.length := by
  intro l
  induction l with
  | nil => intro r; rfl
  | cons t ts ih => intro r; simp [mapRand, ih]

theorem genRand_length (f : Rand → T × Rand) :
    ∀ (n : Nat) (r : Rand), (genRand f n r).1.length = n := by
  intro n
  induction n with
  | zero => intro r; rfl
  | succ m ih => intro r; simp [genRand, ih]

theorem locate_lt_length [DecidableEq T] {cl : T} :
    ∀ {l : List T} {i : Nat}, locate_cl_br cl l = some i → i < l.length := by
  intro l
  induction l with
  | nil => intro i h; simp [locate_cl_br] at h
  | cons t ts ih =>
    intro i h
    simp only [locate_cl_br] at h
    split at h
    · cases h; simp
    · obtain ⟨j, hj, rfl⟩ := Option.map_eq_some'.mp h
      have := ih hj
      simpa using Nat.succ_lt_succ this

theorem getD_mem {l : List T} {d : T} (n : Nat) (hd : d ∈ l) :
    l.getD n d ∈ l := by
  rcases Nat.lt_or_ge n l.length with h | h
  · rw [List.getD_eq_getElem l d h]
    exact List.getElem_mem h
  · rw [List.getD_eq_default l d h]
    exact hd

/-- Characterization of a successful region selection: the start is an
index whose token exposes a closing value, and the stop offset is the
first occurrence of that closing value in the suffix starting at the
start index (inclusive). -/
theorem rand_region_spec [DecidableEq T] [TokenC T] {r : Rand}
    {input : List T} {s e : Nat}
    (h : (rand_region r input).1 = some (s, e)) :
    ∃ t cl, input[s]? = some t ∧ TokenC.closing_bracket t = some cl ∧
      locate_cl_br cl (input.drop s) = some (e - s) ∧ s ≤ e := by
  simp only [rand_region] at h
  split at h
  · simp at h
  · rename_i b bs heq
    split at h
    · rename_i idx hloc
      set c := (b :: bs).getD (r.choose_idx (b :: bs).length).1 b with hc
      have hmem : c ∈ b :: bs := getD_mem _ (List.mem_cons_self _ _)
      rw [← heq] at hmem
      obtain ⟨p, hp, hfp⟩ := List.mem_filterMap.mp hmem
      obtain ⟨tok, htok, hpc⟩ := Option.map_eq_some'.mp hfp
      have hget : input[p.1]? = some p.2 := List.mk_mem_enum_iff_getElem?.mp hp
      simp only [Option.some.injEq, Prod.mk.injEq] at h
      obtain ⟨hs, he⟩ := h
      have h2 : c.2 = p.1 := by rw [← hpc]
      have h1 : c.1 = tok := by rw [← hpc]
      refine ⟨p.2, tok, ?_, htok, ?_, ?_⟩
      · rw [← hs, h2]
        exact hget
      · rw [h1, hs] at hloc
        have hidx : e - s = idx := by omega
        rw [hidx]
        exact hloc
      · omega
    · simp at h

/-- Bounds of a successful region selection:
`start ≤ stop < input.length`. -/
theorem rand_region_bounds [DecidableEq T] [TokenC T] {r : Rand}
    {input : List T} {s e : Nat}
    (h : (rand_region r input).1 = some (s, e)) :
    s ≤ e ∧ e < input.length := by
  obtain ⟨t, cl, hget, _, hloc, hse⟩ := rand_region_spec h
  have hs : s < input.length := by
    have := List.getElem?_eq_some.mp hget
    exact this.1
  have := locate_lt_length hloc
  rw [List.length_drop] at this
  exact ⟨hse, by omega⟩

/-- If no token of the sequence exposes a closing value, region
selection fails and leaves the random source untouched. -/
theorem rand_region_none [DecidableEq T] [TokenC T] (r : Rand)
    {input : List T}
    (h : ∀ t ∈ input, TokenC.closing_bracket t = (none : Option T)) :
    rand_region r input = (none, r) := by
  unfold rand_region
  have hemp : (input.enum.filterMap fun p =>
      (TokenC.closing_bracket p.2).map fun tok => (tok, p.1)) = [] := by
    rw [List.filterMap_eq_nil_iff]
    intro p hp
    have : input[p.1]? = some p.2 := List.mk_mem_enum_iff_getElem?.mp hp
    have hmem : p.2 ∈ input := by
      obtain ⟨hlt, hget⟩ := List.getElem?_eq_some.mp this
      rw [← hget]
      exact List.getElem_mem hlt
    rw [h p.2 hmem]
    rfl
  rw [hemp]

/-- `mutateRegion` preserves the length when the region is within
bounds. -/
theorem mutateRegion_length (f : T → Rand → T × Rand) (tokens : List T)
    {s e : Nat} (r : Rand) (hse : s ≤ e) (hel : e ≤ tokens.length) :
    (mutateRegion f tokens s e r).1.length = tokens.length := by
  simp only [mutateRegion, List.length_append, List.length_take,
    List.length_drop, mapRand_length]
  omega

/-- `mutateRegion` leaves the prefix before the region unchanged. -/
theorem mutateRegion_take (f : T → Rand → T × Rand) (tokens : List T)
    {s e : Nat} (r : Rand) (hsl : s ≤ tokens.length) :
    (mutateRegion f tokens s e r).1.take s = tokens.take s := by
  simp only [mutateRegion, List.append_assoc]
  exact List.take_left' (by simp [List.length_take]; omega)

/-- `mutateRegion` leaves the suffix from the region stop unchanged. -/
theorem mutateRegion_drop (f : T → Rand → T × Rand) (tokens : List T)
    {s e : Nat} (r : Rand) (hse : s ≤ e) (hel : e ≤ tokens.length) :
    (mutateRegion f tokens s e r).1.drop e = tokens.drop e := by
  simp only [mutateRegion]
  exact List.drop_left' (by
    simp [List.length_append, List.length_take, List.length_drop,
      mapRand_length]
    omega)

/-! ## Claims -/

/-- C1: the spec states that delete-span and delete-region reduce the
length by exactly `stop - start` and return `prefix ++ suffix`, with an
empty span being observably a no-op.  The code instead truncates to
`range.end` after the overlapping move.  Evaluating the code at the
failing inputs: delete-span on `[A,B,C,D]` with drawn offsets `1,2`
yields `[A,C]` (length 2), not `[A,C,D]` (length 3); an empty span
`1..1` on `[A,B,C]` yields `[A]` rather than leaving the sequence
unchanged; delete-region on `[A,(,B,C,),D]` (region `1..4`) yields
`[A,),D,C]` with a stale trailing token, not `[A,),D]`. -/
theorem C1_delete_truncates_to_stop :
    (TokenDeleteManyMutator.mutate (mkRand fun i => i + 1)
        [Tok.A, .B, .C, .D]).2.1 = [Tok.A, .C]
    ∧ (TokenDeleteManyMutator.mutate (mkRand fun i => i + 1)
        [Tok.A, .B, .C, .D]).2.1 ≠ [Tok.A, .C, .D]
    ∧ (TokenDeleteManyMutator.mutate (mkRand fun _ => 1)
        [Tok.A, .B, .C]).2.1 = [Tok.A]
    ∧ (TokenDeleteManyMutator.mutate (mkRand fun _ => 1)
        [Tok.A, .B, .C]).1 = MutationResult.Mutated
    ∧ (TokenDeleteRegionMutator.mutate (mkRand fun _ => 0)
        [Tok.A, .LP, .B, .C, .RP, .D]).2.1 = [Tok.A, .RP, .D, .C]
    ∧ (TokenDeleteRegionMutator.mutate (mkRand fun _ => 0)
        [Tok.A, .LP, .B, .C, .RP, .D]).2.1 ≠ [Tok.A, .RP, .D] := by
  decide

/-- C2 (counterexample): delete-span has no emptiness check and reports
`Mutated` on the empty sequence, and insert-random-span has no
emptiness check either and even changes the empty sequence, so the
claim that all ten operators check emptiness first and return `Skipped`
is false. -/
theorem C2_counterexample :
    (TokenDeleteManyMutator.mutate (mkRand fun _ => 0)
        ([] : List Tok)).1 = MutationResult.Mutated
    ∧ (TokenInsertMutator.mutate (mkRand fun _ => 1)
        ([] : List Tok)).2.1 ≠ ([] : List Tok) := by
  decide

/-- C2 (amended): on the empty sequence, random-replace, delete-one,
similar-replace, both region-replace operators, both span-override
operators, delete-region and splice-region return `Skipped` and leave
the sequence unchanged without panicking; delete-span performs no
emptiness check and returns `Mutated`, though the empty sequence is
unchanged; insert-random-span performs no emptiness check, returns
`Mutated`, and replaces the empty sequence with its freshly generated
tokens.  (The random source is spec-modelled: a bounded draw with bound
`0` yields `0`.) -/
theorem C2_empty_sequence_behavior :
    ∀ (T : Type) [DecidableEq T] [TokenC T] (r : Rand),
      TokenRandMutator.mutate r ([] : List T) = (.Skipped, [], r)
      ∧ TokenDeleteMutator.mutate r ([] : List T) = (.Skipped, [], r)
      ∧ TokenRandSimilarMutator.mutate r ([] : List T) = (.Skipped, [], r)
      ∧ TokenReplaceRegionSimilarMutator.mutate r ([] : List T)
          = (.Skipped, [], r)
      ∧ TokenReplaceRegionRandMutator.mutate r ([] : List T)
          = (.Skipped, [], r)
      ∧ TokenOverrideMutator.mutate r ([] : List T) = some (.Skipped, [], r)
      ∧ TokenSimilarOverrideMutator.mutate r ([] : List T) = (.Skipped, [], r)
      ∧ TokenDeleteRegionMutator.mutate r ([] : List T) = (.Skipped, [], r)
      ∧ (∀ corpus : CorpusM T,
          TokenSpliceRegionMutator.mutate corpus r ([] : List T)
            = .ok (.Skipped, [], corpus, (r.below corpus.length).2))
      ∧ TokenDeleteManyMutator.mutate r ([] : List T) = (.Mutated, [], r)
      ∧ TokenInsertMutator.mutate r ([] : List T)
          = (.Mutated,
             (genRand (TokenC.new_rand : Rand → T × Rand)
               (r.below INSERT_TOKEN_MAX).1 (r.below INSERT_TOKEN_MAX).2).1,
             (genRand (TokenC.new_rand : Rand → T × Rand)
               (r.below INSERT_TOKEN_MAX).1 (r.below INSERT_TOKEN_MAX).2).2) := by
  intro T instD instT r
  refine ⟨rfl, rfl, rfl, rfl, rfl, rfl, rfl, rfl, fun corpus => rfl, rfl, ?_⟩
  simp [TokenInsertMutator.mutate, Rand.below]

/-- C2 (witness for the amended claim): the empty-sequence behavior at
a concrete token type and random source. -/
theorem C2_empty_witness :
    TokenRandMutator.mutate (mkRand fun _ => 0) ([] : List Tok)
      = (.Skipped, [], mkRand fun _ => 0) :=
  (C2_empty_sequence_behavior Tok (mkRand fun _ => 0)).1

/-- C3: the spec states that bounded-span-override selects a range that
always lies within the sequence bounds and never panics.  The code
draws two raw unbounded 64-bit offsets and indexes `tokens[min..max]`
directly; on the one-token sequence `[A]` with a stream drawing `5`
then `6`, the slice `[5..6]` is out of bounds and the mutate panics
(modelled as `none`). -/
theorem C3_override_panics_out_of_bounds :
    TokenOverrideMutator.mutate (mkRand fun i => i + 5) [Tok.A] = none := by
  rfl

/-- C4: region selection collects every index whose token exposes a
closing-delimiter value; if there is none it returns `none`; a
successful selection starts at a collected candidate index and stops at
the first occurrence of the paired closing value searching forward from
the candidate index inclusive, as a half-open region; and on the
scenario `[A,(,B,C,),D]` (where `(` closes with `)`) it returns the
region from index 1 to index 4 for every random source. -/
theorem C4_rand_region_selection :
    (∀ (T : Type) [DecidableEq T] [TokenC T] (r : Rand) (input : List T),
       (∀ t ∈ input, TokenC.closing_bracket t = (none : Option T)) →
       (rand_region r input).1 = none)
    ∧ (∀ (T : Type) [DecidableEq T] [TokenC T] (r : Rand) (input : List T)
         (s e : Nat),
       (rand_region r input).1 = some (s, e) →
       ∃ t cl, input[s]? = some t ∧ TokenC.closing_bracket t = some cl ∧
         locate_cl_br cl (input.drop s) = some (e - s) ∧ s ≤ e)
    ∧ (∀ r : Rand,
       rand_region r [Tok.A, .LP, .B, .C, .RP, .D] = (some (1, 4), r)) := by
  refine ⟨?_, ?_, ?_⟩
  · intro T instD instT r input h
    rw [rand_region_none r h]
  · intro T instD instT r input s e h
    exact rand_region_spec h
  · intro r
    rfl

/-- C4 (witness): the no-opener case on `[A]` and the scenario, at a
concrete random source. -/
theorem C4_witness :
    (rand_region (mkRand fun _ => 0) [Tok.A]).1 = none
    ∧ rand_region (mkRand fun _ => 0) [Tok.A, .LP, .B, .C, .RP, .D]
        = (some (1, 4), mkRand fun _ => 0) :=
  ⟨C4_rand_region_selection.1 Tok (mkRand fun _ => 0) [Tok.A] (by decide),
   C4_rand_region_selection.2.2 (mkRand fun _ => 0)⟩

/-- C10: every region returned by `rand_region` on a sequence satisfies
`start ≤ stop` and `stop < length`, so the region operators' slicing,
suffix moves and truncation stay within the sequence bounds. -/
theorem C10_rand_region_in_bounds :
    ∀ (T : Type) [DecidableEq T] [TokenC T] (r : Rand) (input : List T)
      (s e : Nat),
      (rand_region r input).1 = some (s, e) → s ≤ e ∧ e < input.length := by
  intro T instD instT r input s e h
  exact rand_region_bounds h

/-- C10 (witness): the bounds at the concrete scenario region. -/
theorem C10_witness :
    1 ≤ 4 ∧ 4 < ([Tok.A, .LP, .B, .C, .RP, .D] : List Tok).length :=
  C10_rand_region_in_bounds Tok (mkRand fun _ => 0)
    [Tok.A, .LP, .B, .C, .RP, .D] 1 4 (by decide)

/-- C5: splice-region returns `Skipped` without mutating anything when
the local sequence has no selectable region, or when the other corpus
entry has none; a failure to read the other testcase is propagated as
an error, never reported as `Skipped`. -/
theorem C5_splice_skip_and_error :
    ∀ (T : Type) [DecidableEq T] [TokenC T] (corpus : CorpusM T) (r : Rand)
      (tokens : List T),
      (∀ r1, rand_region (r.below corpus.length).2 tokens = (none, r1) →
        TokenSpliceRegionMutator.mutate corpus r tokens
          = .ok (.Skipped, tokens, corpus, r1))
      ∧ (∀ s e r1,
          rand_region (r.below corpus.length).2 tokens = (some (s, e), r1) →
          ∀ err, corpus.getD (r.below corpus.length).1 (.error ()) = .error err →
          TokenSpliceRegionMutator.mutate corpus r tokens = .error err)
      ∧ (∀ s e r1,
          rand_region (r.below corpus.length).2 tokens = (some (s, e), r1) →
          ∀ other, corpus.getD (r.below corpus.length).1 (.error ()) = .ok other →
          ∀ r2, rand_region r1 other = (none, r2) →
          TokenSpliceRegionMutator.mutate corpus r tokens
            = .ok (.Skipped, tokens, corpus, r1)) := by
  intro T instD instT corpus r tokens
  refine ⟨?_, ?_, ?_⟩
  · intro r1 h1
    simp only [TokenSpliceRegionMutator.mutate, h1]
  · intro s e r1 h1 err h2
    simp only [TokenSpliceRegionMutator.mutate, h1, h2]
  · intro s e r1 h1 other h2 r2 h3
    simp only [TokenSpliceRegionMutator.mutate, h1, h2, h3]

/-- C5 (witness): a corpus whose chosen entry fails to load makes
splice-region propagate the error when the local sequence has a
region. -/
theorem C5_witness :
    TokenSpliceRegionMutator.mutate [Except.error ()] (mkRand fun _ => 0)
        [Tok.LP, .RP] = .error () :=
  (C5_splice_skip_and_error Tok [Except.error ()] (mkRand fun _ => 0)
    [Tok.LP, .RP]).2.1 0 1 (mkRand fun _ => 0) rfl () rfl

/-- C6: when the local sequence and the other corpus entry both have a
resolvable region, splice-region leaves the corpus (and thus the other
sequence) unmodified and the local sequence becomes the prefix before
the local region start, then the other region's contents, then the
local suffix from the local region stop onward. -/
theorem C6_splice_success :
    ∀ (T : Type) [DecidableEq T] [TokenC T] (corpus : CorpusM T) (r : Rand)
      (tokens other : List T) (s e s2 e2 : Nat) (r1 r2 : Rand),
      rand_region (r.below corpus.length).2 tokens = (some (s, e), r1) →
      corpus.getD (r.below corpus.length).1 (.error ()) = .ok other →
      rand_region r1 other = (some (s2, e2), r2) →
      TokenSpliceRegionMutator.mutate corpus r tokens
        = .ok (.Mutated,
            tokens.take s ++ ((other.drop s2).take (e2 - s2) ++ tokens.drop e),
            corpus, r1) := by
  intro T instD instT corpus r tokens other s e s2 e2 r1 r2 h1 h2 h3
  simp only [TokenSpliceRegionMutator.mutate, h1, h2, h3]

/-- C6 (witness): a concrete splice replacing the local region `0..1`
of `[(,)]` with the other entry's region contents `[(]`. -/
theorem C6_witness :
    TokenSpliceRegionMutator.mutate [Except.ok [Tok.LP, .RP]]
        (mkRand fun _ => 0) [Tok.LP, .RP]
      = .ok (.Mutated, [Tok.LP, .RP], [Except.ok [Tok.LP, .RP]],
          mkRand fun _ => 0) :=
  C6_splice_success Tok [Except.ok [Tok.LP, .RP]] (mkRand fun _ => 0)
    [Tok.LP, .RP] [Tok.LP, .RP] 0 1 0 1 (mkRand fun _ => 0)
    (mkRand fun _ => 0) rfl rfl rfl

/-- C7: on every non-empty sequence, insert-random-span inserts at most
`INSERT_TOKEN_MAX` fresh tokens at a single insertion point within the
sequence, and the result is the original prefix before the point, the
new tokens, and the original suffix. -/
theorem C7_insert_shape :
    ∀ (T : Type) [TokenC T] (r : Rand) (tokens : List T), tokens ≠ [] →
      (TokenInsertMutator.mutate r tokens).1 = .Mutated
      ∧ ∃ idx fresh,
          idx < tokens.length
          ∧ fresh.length ≤ INSERT_TOKEN_MAX
          ∧ (TokenInsertMutator.mutate r tokens).2.1
              = tokens.take idx ++ fresh ++ tokens.drop idx := by
  intro T instT r tokens h
  refine ⟨rfl, ?_⟩
  refine ⟨((genRand (TokenC.new_rand : Rand → T × Rand)
      (r.below INSERT_TOKEN_MAX).1 (r.below INSERT_TOKEN_MAX).2).2.below
      tokens.length).1,
    (genRand (TokenC.new_rand : Rand → T × Rand)
      (r.below INSERT_TOKEN_MAX).1 (r.below INSERT_TOKEN_MAX).2).1,
    ?_, ?_, ?_⟩
  · exact Rand.below_lt _ (List.length_pos.mpr h)
  · rw [genRand_length]
    exact Nat.le_of_lt (Rand.below_lt r (by norm_num [INSERT_TOKEN_MAX]))
  · unfold TokenInsertMutator.mutate
    rw [List.append_assoc]

/-- C7 (witness): inserting into the one-token sequence `[A]`. -/
theorem C7_witness :
    (TokenInsertMutator.mutate (mkRand fun _ => 1) [Tok.A]).1 = .Mutated
    ∧ ∃ idx fresh,
        idx < ([Tok.A] : List Tok).length
        ∧ fresh.length ≤ INSERT_TOKEN_MAX
        ∧ (TokenInsertMutator.mutate (mkRand fun _ => 1) [Tok.A]).2.1
            = ([Tok.A] : List Tok).take idx ++ fresh
              ++ ([Tok.A] : List Tok).drop idx :=
  C7_insert_shape Tok (mkRand fun _ => 1) [Tok.A] (by decide)

/-- C8: with a resolvable region `s..e`, region-similar-replace and
region-random-replace report `Mutated`, keep the length, and leave the
prefix before `s` and the suffix from `e` unchanged. -/
theorem C8_region_replace_frame :
    ∀ (T : Type) [DecidableEq T] [TokenC T] (r r1 : Rand) (tokens : List T)
      (s e : Nat),
      rand_region r tokens = (some (s, e), r1) →
      ((TokenReplaceRegionSimilarMutator.mutate r tokens).1 = .Mutated
       ∧ (TokenReplaceRegionSimilarMutator.mutate r tokens).2.1.length
           = tokens.length
       ∧ (TokenReplaceRegionSimilarMutator.mutate r tokens).2.1.take s
           = tokens.take s
       ∧ (TokenReplaceRegionSimilarMutator.mutate r tokens).2.1.drop e
           = tokens.drop e)
      ∧ ((TokenReplaceRegionRandMutator.mutate r tokens).1 = .Mutated
       ∧ (TokenReplaceRegionRandMutator.mutate r tokens).2.1.length
           = tokens.length
       ∧ (TokenReplaceRegionRandMutator.mutate r tokens).2.1.take s
           = tokens.take s
       ∧ (TokenReplaceRegionRandMutator.mutate r tokens).2.1.drop e
           = tokens.drop e) := by
  intro T instD instT r r1 tokens s e h
  obtain ⟨hse, hel⟩ :=
    rand_region_bounds (show (rand_region r tokens).1 = some (s, e) by rw [h])
  have hsl : s ≤ tokens.length := Nat.le_trans hse (Nat.le_of_lt hel)
  refine ⟨⟨?_, ?_, ?_, ?_⟩, ⟨?_, ?_, ?_, ?_⟩⟩ <;>
    simp only [TokenReplaceRegionSimilarMutator.mutate,
      TokenReplaceRegionRandMutator.mutate, h]
  · exact mutateRegion_length _ _ _ hse (Nat.le_of_lt hel)
  · exact mutateRegion_take _ _ _ hsl
  · exact mutateRegion_drop _ _ _ hse (Nat.le_of_lt hel)
  · exact mutateRegion_length _ _ _ hse (Nat.le_of_lt hel)
  · exact mutateRegion_take _ _ _ hsl
  · exact mutateRegion_drop _ _ _ hse (Nat.le_of_lt hel)

/-- C8 (witness): the frame conditions at the scenario sequence with
region `1..4`. -/
theorem C8_witness :
    ((TokenReplaceRegionSimilarMutator.mutate (mkRand fun _ => 0)
        [Tok.A, .LP, .B, .C, .RP, .D]).1 = .Mutated
     ∧ (TokenReplaceRegionSimilarMutator.mutate (mkRand fun _ => 0)
        [Tok.A, .LP, .B, .C, .RP, .D]).2.1.length
          = ([Tok.A, .LP, .B, .C, .RP, .D] : List Tok).length
     ∧ (TokenReplaceRegionSimilarMutator.mutate (mkRand fun _ => 0)
        [Tok.A, .LP, .B, .C, .RP, .D]).2.1.take 1
          = ([Tok.A, .LP, .B, .C, .RP, .D] : List Tok).take 1
     ∧ (TokenReplaceRegionSimilarMutator.mutate (mkRand fun _ => 0)
        [Tok.A, .LP, .B, .C, .RP, .D]).2.1.drop 4
          = ([Tok.A, .LP, .B, .C, .RP, .D] : List Tok).drop 4)
    ∧ ((TokenReplaceRegionRandMutator.mutate (mkRand fun _ => 0)
        [Tok.A, .LP, .B, .C, .RP, .D]).1 = .Mutated
     ∧ (TokenReplaceRegionRandMutator.mutate (mkRand fun _ => 0)
        [Tok.A, .LP, .B, .C, .RP, .D]).2.1.length
          = ([Tok.A, .LP, .B, .C, .RP, .D] : List Tok).length
     ∧ (TokenReplaceRegionRandMutator.mutate (mkRand fun _ => 0)
        [Tok.A, .LP, .B, .C, .RP, .D]).2.1.take 1
          = ([Tok.A, .LP, .B, .C, .RP, .D] : List Tok).take 1
     ∧ (TokenReplaceRegionRandMutator.mutate (mkRand fun _ => 0)
        [Tok.A, .LP, .B, .C, .RP, .D]).2.1.drop 4
          = ([Tok.A, .LP, .B, .C, .RP, .D] : List Tok).drop 4) :=
  C8_region_replace_frame Tok (mkRand fun _ => 0) (mkRand fun _ => 0)
    [Tok.A, .LP, .B, .C, .RP, .D] 1 4 rfl

/-- C9: `generate_name` ignores its index argument, is deterministic,
depends only on the tokens' byte encodings and their order, and always
produces a 16-character hexadecimal string. -/
theorem C9_generate_name_pure :
    ∀ (T : Type) [TokenC T] (σ : Type) (M : HasherM σ)
      (tokens tokens2 : List T) (idx idx2 : Nat),
      generate_name M tokens idx = generate_name M tokens idx2
      ∧ (tokens.map TokenC.as_bytes = tokens2.map TokenC.as_bytes →
         generate_name M tokens idx = generate_name M tokens2 idx2)
      ∧ (generate_name M tokens idx).length = 16 := by
  intro T instT σ M tokens tokens2 idx idx2
  refine ⟨rfl, ?_, ?_⟩
  · intro hmap
    have key : ∀ (l : List T),
        l.foldl (fun st tok => M.write st (TokenC.as_bytes tok)) M.build
          = (l.map TokenC.as_bytes).foldl M.write M.build :=
      fun l => (List.foldl_map TokenC.as_bytes M.write l M.build).symm
    unfold generate_name
    rw [key tokens, key tokens2, hmap]
  · unfold generate_name hex016
    simp [String.length]

/-- C9 (witness): the name of `[A]` under a concrete hasher model is
index-independent and 16 characters long. -/
theorem C9_witness :
    generate_name (⟨0, fun s l => s * 31 + l.sum, fun s => s⟩ : HasherM Nat)
        [Tok.A] 0
      = generate_name (⟨0, fun s l => s * 31 + l.sum, fun s => s⟩ : HasherM Nat)
        [Tok.A] 5
    ∧ (generate_name (⟨0, fun s l => s * 31 + l.sum, fun s => s⟩ : HasherM Nat)
        [Tok.A] 0).length = 16 :=
  ⟨(C9_generate_name_pure Tok Nat
      (⟨0, fun s l => s * 31 + l.sum, fun s => s⟩ : HasherM Nat)
      [Tok.A] [Tok.A] 0 5).2.1 rfl,
   (C9_generate_name_pure Tok Nat
      (⟨0, fun s l => s * 31 + l.sum, fun s => s⟩ : HasherM Nat)
      [Tok.A] [Tok.A] 0 5).2.2⟩

end LibAFL
